import Mathlib

/-!
Verification of the `dojo/parser` DOM-mutation watcher (`src/watch.ts`).

The development shallowly embeds the polling subtree change detector:

* A live DOM node is a `DomTree`: its reference identity (`ref`, modelling
  JavaScript object identity of the `HTMLElement`), its `nodeType`, and the
  ordered list of its current children.  Two `DomTree` values with the same
  `ref` model the same DOM node observed at different times.
* The `id` attribute of a node never changes during the scenarios we model,
  so it is kept in a global association list `IdAttrs` from `ref` to the
  attribute string (`""` models an absent/empty id, which is falsy in JS).
* `ElementStructure` mirrors the snapshot structure of `watch.ts`
  (`{ node; kids? }`).  The optional `kids` array is represented as a plain
  list: `copy` only fills it for element nodes (`nodeType == 1`) and an
  absent field behaves exactly like an empty array in every reachable read
  (`olen` is `0` for both, and the recursion guard on line 119 is falsy for
  both), so the two are observationally identical.
* The differ's shared mutable state (the `dirty` flag, the `changes`
  accumulator and the module-level id counter / WeakMap of `getNodeID`) is
  threaded explicitly as a `DiffSt` record.  JS array `push` appends at the
  back; the `conflicts` array is used as a stack (`push`/`pop`), which we
  model with a cons-list whose head is the top of the stack.
* The snapshot-side move search of watch.ts line 153,
  `indexOf(kids, oldNode, i, 'node')`, projects the `node` property of live
  `NodeList` entries, which live DOM nodes do not have; the projection is
  `undefined` (`DomTree.nodeProp`), the `===` comparison with `oldNode`
  never holds, and the search always returns `-1` (`indexOf_nodeProp`), so
  the conflict push of lines 159–164 is dead code and an unseen snapshot
  node is always reported Removed.  The embedding reproduces this, dead
  branch included.
-/

/-- The two types of changes emitted by watch (`ChangeType` in watch.ts). -/
inductive ChangeType : Type where
  | Added
  | Removed
deriving DecidableEq, Repr

/-- A change record (`WatcherRecord` in watch.ts): the node is identified by
its reference (`node: HTMLElement`). -/
structure WatcherRecord where
  node : Nat
  type : ChangeType
deriving DecidableEq, Repr

/-- A deferred reconciliation entry (`Conflict` in watch.ts): `i` indexes the
live children, `j` the snapshot children. -/
structure Conflict where
  i : Nat
  j : Nat
deriving DecidableEq, Repr

/-- A live DOM node: reference identity, node type and current children.
Models the `HTMLElement`/`NodeList` interface that watch.ts reads
(`childNodes`, reference equality `===`, `nodeType`). -/
inductive DomTree : Type where
  | mk (ref : Nat) (nodeType : Nat) (children : List DomTree)

/-- Reference identity of a live node (JS object identity). -/
def DomTree.ref : DomTree → Nat
  | .mk r _ _ => r

/-- The `nodeType` property of a live node (`1` = element). -/
def DomTree.nodeType : DomTree → Nat
  | .mk _ ty _ => ty

/-- The current `childNodes` of a live node. -/
def DomTree.children : DomTree → List DomTree
  | .mk _ _ c => c

/-- Reading the `node` property of a live DOM node.  `HTMLElement`s have no
such property (only snapshot `ElementStructure`s do), so in JS the access
`kids[fromIndex]['node']` yields `undefined` — modelled as `none`.  This
makes the snapshot-side move search of watch.ts line 153 always miss. -/
def DomTree.nodeProp : DomTree → Option Nat :=
  fun _ => none

/-- A snapshot node (`ElementStructure` in watch.ts): the captured node
reference plus the captured children (empty for non-element nodes, whose
optional `kids` field is never set by `copy`). -/
inductive ElementStructure : Type where
  | mk (node : Nat) (kids : List ElementStructure)

/-- The captured node reference of a snapshot entry. -/
def ElementStructure.node : ElementStructure → Nat
  | .mk n _ => n

/-- The captured children of a snapshot entry. -/
def ElementStructure.kids : ElementStructure → List ElementStructure
  | .mk _ k => k

/-- Global map from node reference to the node's `id` attribute; `""` models
an absent id (falsy in JS, like `undefined` for non-elements). -/
abbrev IdAttrs := List (Nat × String)

/-- Read the `id` attribute of the node with reference `r` (JS `node.id`). -/
def idAttrOf (attrs : IdAttrs) (r : Nat) : String :=
  ((attrs.find? (fun p => p.fst = r)).map Prod.snd).getD ""

/-- The module-level state of the identity resolver of watch.ts:
`nodeIDCounter` and the `nodeIDWeakMap` (an association list keyed by node
reference, newest entry first). -/
structure IdState where
  counter : Nat
  table : List (Nat × String)
deriving DecidableEq, Repr

/-- Look up a node reference in the WeakMap model (newest entry wins,
matching `WeakMap.get` since a key is inserted at most once). -/
def IdState.lookup (g : IdState) (r : Nat) : Option String :=
  (g.table.find? (fun p => p.fst = r)).map Prod.snd

/-- Helper function to retrieve a node's ID (`getNodeID` in watch.ts):
`let id = node.id || nodeIDWeakMap.get(node); if (!id) { mint }`.
`""` plays the role of every falsy value. -/
def getNodeID (attrs : IdAttrs) (r : Nat) (g : IdState) : String × IdState :=
  let id := if idAttrOf attrs r ≠ "" then idAttrOf attrs r else (g.lookup r).getD ""
  if id ≠ "" then (id, g)
  else
    let minted := "__node_id" ++ toString (g.counter + 1)
    (minted, { counter := g.counter + 1, table := (r, minted) :: g.table })

/-- `indexOf` helper of watch.ts, generic over the optional `property`
projection: `property` models `collection[fromIndex][property]` (or the
element itself when the argument is omitted), and the comparison is the
source's `===` over whatever value the projection yields (so `β` is
`Option Nat` when the projected property may be `undefined`).  Returns the
index as in the source, `-1` when not found. -/
def indexOf {α β : Type} [DecidableEq β] (collection : List α) (searchFor : β)
    (fromIndex : Nat) (property : α → β) : Int :=
  if h : fromIndex < collection.length then
    if property (collection.get ⟨fromIndex, h⟩) = searchFor then (fromIndex : Int)
    else indexOf collection searchFor (fromIndex + 1) property
  else -1
termination_by collection.length - fromIndex

/-- The state threaded through one differ run: the `dirty` flag and
`changes` accumulator of `searchSubTree` plus the global identity-resolver
state touched by `getNodeID`. -/
structure DiffSt where
  dirty : Bool
  changes : List WatcherRecord
  ids : IdState
deriving DecidableEq, Repr

/-- Result of one pass of the mismatch branch of `findMutations`
(watch.ts lines 125–167): the updated cursors, seen-id map, conflict stack
and threaded state. -/
structure StepOut where
  i : Nat
  j : Nat
  map : List String
  conflicts : List Conflict
  st : DiffSt
deriving DecidableEq, Repr

/-- The `else` (mismatch) branch of the scanning loop of `findMutations`
(watch.ts lines 125–167).  It sets `dirty`, processes the live side (Added
or a deferred conflict, advancing `i`), then the snapshot side (Removed or
a deferred conflict, advancing `j`) — the snapshot side compares against
`kids[i]` *after* the live-side `i++`, exactly as in the source.  Note the
snapshot-side move search of line 153, `indexOf(kids, oldNode, i, 'node')`,
reads the `node` property of *live* nodes, which does not exist
(`DomTree.nodeProp` is `undefined`), so that search always returns `-1`
and its conflict push (lines 159–164) is dead code: an unseen snapshot
node is always reported Removed.  The model preserves this behaviour. -/
def mismatchStep (attrs : IdAttrs) (kids : List DomTree) (oldKids : List ElementStructure)
    (i j : Nat) (map : List String) (conflicts : List Conflict) (st : DiffSt) : StepOut :=
  let st := { st with dirty := true }
  -- the `i++` of line 147, performed exactly when `currentNode` exists
  let i2 := if (kids.get? i).isSome then i + 1 else i
  -- lines 131-146: the body of `if (currentNode)`
  let live : List String × List Conflict × DiffSt :=
    match kids.get? i with
    | some currentNode =>
        let idg := getNodeID attrs currentNode.ref st.ids
        let st := { st with ids := idg.2 }
        if idg.1 ∈ map then (map, conflicts, st)
        else
          let map2 := idg.1 :: map
          let idx := indexOf oldKids currentNode.ref j ElementStructure.node
          if idx = -1 then
            (map2, conflicts,
             { st with changes := st.changes ++ [⟨currentNode.ref, ChangeType.Added⟩] })
          else (map2, ⟨i, idx.toNat⟩ :: conflicts, st)
    | none => (map, conflicts, st)
  let map1 := live.1
  let conflicts1 := live.2.1
  let st1 := live.2.2
  -- the `j++` of line 166, performed exactly when `oldNode && oldNode !== kids[i]`
  -- (note `kids[i]` is read after the live-side `i++`, hence `i2`)
  let oldNode? := (oldKids.get? j).map ElementStructure.node
  let j2 := if oldNode?.isSome ∧ oldNode? ≠ (kids.get? i2).map DomTree.ref then j + 1 else j
  -- lines 151-165: the body of `if (oldNode && oldNode !== kids[i])`
  let snap : List String × List Conflict × DiffSt :=
    match oldKids.get? j with
    | some oldStructure =>
        if some oldStructure.node ≠ (kids.get? i2).map DomTree.ref then
          let idg := getNodeID attrs oldStructure.node st1.ids
          let st := { st1 with ids := idg.2 }
          if idg.1 ∈ map1 then (map1, conflicts1, st)
          else
            let map2 := idg.1 :: map1
            let idx := indexOf kids (some oldStructure.node) i2 DomTree.nodeProp
            if idx = -1 then
              (map2, conflicts1,
               { st with changes := st.changes ++ [⟨oldStructure.node, ChangeType.Removed⟩] })
            else (map2, ⟨idx.toNat, j⟩ :: conflicts1, st)
        else (map1, conflicts1, st1)
    | none => (map1, conflicts1, st1)
  ⟨i2, j2, snap.1, snap.2.1, snap.2.2⟩

mutual

/-- Structural copy of a live subtree (`copy` inside `clone` of watch.ts
lines 206–214): every child is captured by reference; only element nodes
(`nodeType === 1`) capture their children (the `map` over `childNodes`). -/
def copy : DomTree → ElementStructure
  | .mk ref ty children => ⟨ref, if ty = 1 then mapCopy children else []⟩

/-- The `map(list, copy)` helper inside `clone` (watch.ts lines 198–204). -/
def mapCopy : List DomTree → List ElementStructure
  | [] => []
  | t :: ts => copy t :: mapCopy ts

end

/-- Map an HTMLElement into an ElementStructure (`clone` in watch.ts):
it simply runs `copy` on the target. -/
def clone (target : DomTree) : ElementStructure :=
  copy target

mutual

/-- Real-DOM well-formedness: non-element nodes never have children.  This
is an invariant of every actual DOM tree (text/comment nodes have an empty
`childNodes` list); it is a hypothesis, not part of the source. -/
def wellFormed : DomTree → Bool
  | .mk _ ty children => (ty = 1 || children.isEmpty) && wellFormedList children

/-- Well-formedness of a list of sibling subtrees. -/
def wellFormedList : List DomTree → Bool
  | [] => true
  | t :: ts => wellFormed t && wellFormedList ts

end

mutual

/-- The recursive worker of `searchSubTree` (watch.ts lines 99–173): diff
one live node against its snapshot.  The per-call seen-id `map` and
`conflicts` stack start empty; the scanning loop is `findMutationsLoop`. -/
def findMutations (attrs : IdAttrs) (node : DomTree) (state : ElementStructure)
    (st : DiffSt) : DiffSt :=
  findMutationsLoop attrs node.children state.kids 0 0 [] [] st
termination_by (sizeOf node, 0, 0)
decreasing_by
  cases node with
  | mk r ty c => exact Prod.Lex.left _ _ (by simp [DomTree.children])

/-- The `while (i < klen || j < olen)` scanning loop of `findMutations`
(watch.ts lines 111–172).  The positional-match branch flushes pending
conflicts, recurses when either side has descendants, and advances both
cursors; the mismatch branch is `mismatchStep` followed by the
end-of-iteration conflict flush of lines 169–171.  After each iteration the
conflict stack has been drained, so the loop continues with `[]`. -/
def findMutationsLoop (attrs : IdAttrs) (kids : List DomTree)
    (oldKids : List ElementStructure) (i j : Nat) (map : List String)
    (conflicts : List Conflict) (st : DiffSt) : DiffSt :=
  if hguard : i < kids.length ∨ j < oldKids.length then
    match hk : kids.get? i, ho : oldKids.get? j with
    | some currentNode, some oldStructure =>
        if currentNode.ref = oldStructure.node then
          -- lines 115-123: positional match
          let st1 := resolveConflicts attrs kids oldKids conflicts st
          let st2 := if currentNode.children.length ≠ 0 ∨ oldStructure.kids.length ≠ 0 then
                       findMutations attrs currentNode oldStructure st1
                     else st1
          -- lines 169-171: the conflicts array was already drained above
          let st3 := resolveConflicts attrs kids oldKids [] st2
          findMutationsLoop attrs kids oldKids (i + 1) (j + 1) map [] st3
        else
          let r := mismatchStep attrs kids oldKids i j map conflicts st
          let st1 := resolveConflicts attrs kids oldKids r.conflicts r.st
          findMutationsLoop attrs kids oldKids r.i r.j r.map [] st1
    | some _, none =>
        let r := mismatchStep attrs kids oldKids i j map conflicts st
        let st1 := resolveConflicts attrs kids oldKids r.conflicts r.st
        findMutationsLoop attrs kids oldKids r.i r.j r.map [] st1
    | none, some _ =>
        let r := mismatchStep attrs kids oldKids i j map conflicts st
        let st1 := resolveConflicts attrs kids oldKids r.conflicts r.st
        findMutationsLoop attrs kids oldKids r.i r.j r.map [] st1
    | none, none =>
        -- unreachable: the loop guard requires one cursor to be in range
        st
  else st
termination_by (sizeOf kids, 1, kids.length - i + (oldKids.length - j))
decreasing_by
  all_goals first
    | exact Prod.Lex.right _ (Prod.Lex.left _ _ (by omega))
    | exact Prod.Lex.left _ _ (List.sizeOf_lt_of_mem (List.get?_mem (by assumption)))
    | (refine Prod.Lex.right _ (Prod.Lex.right _ ?_)
       first
         | (have hi : i < kids.length := (List.get?_eq_some.mp hk).choose
            rw [List.get?_eq_getElem?] at hk
            simp [mismatchStep, hk]
            first | omega | (split <;> omega))
         | (have hi : kids.length ≤ i := List.get?_eq_none.mp hk
            have hj : j < oldKids.length := (List.get?_eq_some.mp ho).choose
            rw [List.get?_eq_getElem?] at hk ho
            simp [mismatchStep, hk, ho]
            first | omega | (split <;> omega)))

/-- Drain the conflicts stack (`resolveConflicts` in watch.ts lines 88–97):
pop each deferred pair and recurse into it.  Out-of-range indices never
occur for stacks built by the loop; they are skipped in the model (the
source would fault on them). -/
def resolveConflicts (attrs : IdAttrs) (kids : List DomTree)
    (oldKids : List ElementStructure) (conflicts : List Conflict) (st : DiffSt) : DiffSt :=
  match conflicts with
  | [] => st
  | c :: rest =>
      match hc : kids.get? c.i, oldKids.get? c.j with
      | some currentNode, some oldStructure =>
          resolveConflicts attrs kids oldKids rest
            (findMutations attrs currentNode oldStructure st)
      | _, _ => resolveConflicts attrs kids oldKids rest st
termination_by (sizeOf kids, 0, conflicts.length)
decreasing_by
  all_goals first
    | exact Prod.Lex.left _ _ (List.sizeOf_lt_of_mem (List.get?_mem (by assumption)))
    | exact Prod.Lex.right _ (Prod.Lex.right _ (by simp [List.length_cons]))

end

/-- Looking in a subtree for changes (`searchSubTree` in watch.ts lines
85–176): run `findMutations` on the target against the old state with a
fresh `dirty = false` flag, returning the flag together with the threaded
`changes` accumulator and identity-resolver state. -/
def searchSubTree (attrs : IdAttrs) (changes : List WatcherRecord) (target : DomTree)
    (oldState : ElementStructure) (g : IdState) : Bool × List WatcherRecord × IdState :=
  let st := findMutations attrs target oldState ⟨false, changes, g⟩
  (st.dirty, st.changes, st.ids)

/-- The initial state of the change-detector closure built by
`getChangeDetector` (watch.ts line 224): a fresh clone of the target. -/
def getChangeDetector (target : DomTree) : ElementStructure :=
  clone target

/-- One run of the `detectChanges` closure (watch.ts lines 226–232): diff
the target against the stored snapshot; retake the snapshot when the differ
reported dirty or the accumulator grew.  Returns the accumulator, the
(possibly replaced) stored snapshot and the identity-resolver state. -/
def detectChanges (attrs : IdAttrs) (target : DomTree) (oldState : ElementStructure)
    (changes : List WatcherRecord) (g : IdState) :
    List WatcherRecord × ElementStructure × IdState :=
  let olen := changes.length
  let r := searchSubTree attrs changes target oldState g
  let oldState2 := if r.1 ∨ r.2.1.length ≠ olen then clone target else oldState
  (r.2.1, oldState2, r.2.2)

/-- One scheduler tick over the active watch list (`checkChanges` in
watch.ts lines 257–271), processing entries in order with the shared
identity-resolver state threaded through.  Each entry is a pair of the
target's current live tree and the detector closure's stored snapshot.
`idx` numbers the entries; a pair `(idx, changes)` in the middle component
models one `queueMicroTask` delivery of `changes` to entry `idx`'s callback
(queued exactly when `changes.length` is truthy). -/
def checkChangesAux (attrs : IdAttrs) (idx : Nat) (g : IdState) :
    List (DomTree × ElementStructure) →
    List (DomTree × ElementStructure) × List (Nat × List WatcherRecord) × IdState
  | [] => ([], [], g)
  | entry :: rest =>
      let r := detectChanges attrs entry.1 entry.2 [] g
      let rec' := checkChangesAux attrs (idx + 1) r.2.2 rest
      ((entry.1, r.2.1) :: rec'.1,
       (if r.1.length ≠ 0 then [(idx, r.1)] else []) ++ rec'.2.1,
       rec'.2.2)

/-- One scheduler tick (`checkChanges`), starting at entry index `0`. -/
def checkChanges (attrs : IdAttrs) (g : IdState)
    (entries : List (DomTree × ElementStructure)) :
    List (DomTree × ElementStructure) × List (Nat × List WatcherRecord) × IdState :=
  checkChangesAux attrs 0 g entries

/-- The `destroy` method of the handle returned by `watch` (watch.ts lines
291–296): look up the entry by reference identity (`nodeMap.indexOf(item)`,
modelled by a unique token per entry) and `splice` it out when found
(`if (~idx)` — truthy exactly when `idx !== -1`). -/
def destroy (nodeMap : List Nat) (item : Nat) : List Nat :=
  let idx := indexOf nodeMap item 0 (fun x => x)
  if idx = -1 then nodeMap
  else nodeMap.take idx.toNat ++ nodeMap.drop (idx.toNat + 1)

/-- Numeric value of a base-10 digit string (proof device, not from the
source). -/
def digitsVal : List Char → Nat
  | [] => 0
  | c :: cs => (c.toNat - 48) * 10 ^ cs.length + digitsVal cs

/-! ## Evaluation equations for the well-founded definitions

The differ is compiled by well-founded recursion, so the kernel does not
reduce it; these equations re-express each branch of the source loop and
drive both the symbolic proofs and the concrete evaluations below. -/

/-- An empty conflicts stack resolves to the unchanged state. -/
theorem resolveConflicts_nil (attrs : IdAttrs) (kids : List DomTree)
    (oldKids : List ElementStructure) (st : DiffSt) :
    resolveConflicts attrs kids oldKids [] st = st := by
  simp [resolveConflicts]

/-- Popping one in-range conflict recurses into the deferred pair. -/
theorem resolveConflicts_cons (attrs : IdAttrs) (kids : List DomTree)
    (oldKids : List ElementStructure) (c : Conflict) (rest : List Conflict) (st : DiffSt)
    (currentNode : DomTree) (oldStructure : ElementStructure)
    (hk : kids.get? c.i = some currentNode) (ho : oldKids.get? c.j = some oldStructure) :
    resolveConflicts attrs kids oldKids (c :: rest) st =
      resolveConflicts attrs kids oldKids rest
        (findMutations attrs currentNode oldStructure st) := by
  rw [resolveConflicts]
  split
  · next cn os h1 h2 =>
      rw [hk] at h1
      rw [ho] at h2
      injection h1 with h1
      injection h2 with h2
      subst h1
      subst h2
      rfl
  · next h1 h2 => simp_all

/-- The scanning loop exits exactly when both cursors are exhausted. -/
theorem findMutationsLoop_exit (attrs : IdAttrs) (kids : List DomTree)
    (oldKids : List ElementStructure) (i j : Nat) (map : List String)
    (conflicts : List Conflict) (st : DiffSt)
    (hi : kids.length ≤ i) (hj : oldKids.length ≤ j) :
    findMutationsLoop attrs kids oldKids i j map conflicts st = st := by
  rw [findMutationsLoop]
  rw [dif_neg (by omega)]

/-- Positional-match branch (watch.ts lines 115–123): flush conflicts,
recurse when either side has descendants, advance both cursors. -/
theorem findMutationsLoop_match (attrs : IdAttrs) (kids : List DomTree)
    (oldKids : List ElementStructure) (i j : Nat) (map : List String)
    (conflicts : List Conflict) (st : DiffSt)
    (currentNode : DomTree) (oldStructure : ElementStructure)
    (hk : kids.get? i = some currentNode) (ho : oldKids.get? j = some oldStructure)
    (heq : currentNode.ref = oldStructure.node) :
    findMutationsLoop attrs kids oldKids i j map conflicts st =
      findMutationsLoop attrs kids oldKids (i + 1) (j + 1) map []
        (if currentNode.children.length ≠ 0 ∨ oldStructure.kids.length ≠ 0 then
           findMutations attrs currentNode oldStructure
             (resolveConflicts attrs kids oldKids conflicts st)
         else resolveConflicts attrs kids oldKids conflicts st) := by
  have hi : i < kids.length := (List.get?_eq_some.mp hk).choose
  rw [findMutationsLoop]
  rw [dif_pos (Or.inl hi)]
  split
  · next cn os h1 h2 =>
      rw [hk] at h1
      rw [ho] at h2
      injection h1 with h1
      injection h2 with h2
      subst h1
      subst h2
      rw [if_pos heq]
      simp only [resolveConflicts_nil]
  · next h1 h2 => simp_all
  · next h1 h2 => simp_all
  · next h1 h2 => simp_all

/-- Mismatch branch, both cursors in range (watch.ts lines 125–167). -/
theorem findMutationsLoop_mismatch (attrs : IdAttrs) (kids : List DomTree)
    (oldKids : List ElementStructure) (i j : Nat) (map : List String)
    (conflicts : List Conflict) (st : DiffSt)
    (currentNode : DomTree) (oldStructure : ElementStructure)
    (hk : kids.get? i = some currentNode) (ho : oldKids.get? j = some oldStructure)
    (hne : currentNode.ref ≠ oldStructure.node) :
    findMutationsLoop attrs kids oldKids i j map conflicts st =
      findMutationsLoop attrs kids oldKids
        (mismatchStep attrs kids oldKids i j map conflicts st).i
        (mismatchStep attrs kids oldKids i j map conflicts st).j
        (mismatchStep attrs kids oldKids i j map conflicts st).map []
        (resolveConflicts attrs kids oldKids
          (mismatchStep attrs kids oldKids i j map conflicts st).conflicts
          (mismatchStep attrs kids oldKids i j map conflicts st).st) := by
  have hi : i < kids.length := (List.get?_eq_some.mp hk).choose
  rw [findMutationsLoop]
  rw [dif_pos (Or.inl hi)]
  split
  · next cn os h1 h2 =>
      rw [hk] at h1
      rw [ho] at h2
      injection h1 with h1
      injection h2 with h2
      subst h1
      subst h2
      rw [if_neg hne]
  · next h1 h2 => simp_all
  · next h1 h2 => simp_all
  · next h1 h2 => simp_all

/-- Mismatch branch, snapshot cursor exhausted (only the live side acts). -/
theorem findMutationsLoop_liveOnly (attrs : IdAttrs) (kids : List DomTree)
    (oldKids : List ElementStructure) (i j : Nat) (map : List String)
    (conflicts : List Conflict) (st : DiffSt)
    (currentNode : DomTree)
    (hk : kids.get? i = some currentNode) (ho : oldKids.get? j = none) :
    findMutationsLoop attrs kids oldKids i j map conflicts st =
      findMutationsLoop attrs kids oldKids
        (mismatchStep attrs kids oldKids i j map conflicts st).i
        (mismatchStep attrs kids oldKids i j map conflicts st).j
        (mismatchStep attrs kids oldKids i j map conflicts st).map []
        (resolveConflicts attrs kids oldKids
          (mismatchStep attrs kids oldKids i j map conflicts st).conflicts
          (mismatchStep attrs kids oldKids i j map conflicts st).st) := by
  have hi : i < kids.length := (List.get?_eq_some.mp hk).choose
  have hjlen : oldKids.length ≤ j := List.get?_eq_none.mp ho
  rw [findMutationsLoop]
  rw [dif_pos (Or.inl hi)]
  split <;>
    first
      | rfl
      | (rename_i h1 h2
         first
           | (rw [hk] at h1
              exact Option.noConfusion h1)
           | (exfalso
              have := (List.get?_eq_some.mp h2).choose
              omega))

/-- Mismatch branch, live cursor exhausted (only the snapshot side acts). -/
theorem findMutationsLoop_snapOnly (attrs : IdAttrs) (kids : List DomTree)
    (oldKids : List ElementStructure) (i j : Nat) (map : List String)
    (conflicts : List Conflict) (st : DiffSt)
    (oldStructure : ElementStructure)
    (hk : kids.get? i = none) (ho : oldKids.get? j = some oldStructure) :
    findMutationsLoop attrs kids oldKids i j map conflicts st =
      findMutationsLoop attrs kids oldKids
        (mismatchStep attrs kids oldKids i j map conflicts st).i
        (mismatchStep attrs kids oldKids i j map conflicts st).j
        (mismatchStep attrs kids oldKids i j map conflicts st).map []
        (resolveConflicts attrs kids oldKids
          (mismatchStep attrs kids oldKids i j map conflicts st).conflicts
          (mismatchStep attrs kids oldKids i j map conflicts st).st) := by
  have hj : j < oldKids.length := (List.get?_eq_some.mp ho).choose
  have hilen : kids.length ≤ i := List.get?_eq_none.mp hk
  rw [findMutationsLoop]
  rw [dif_pos (Or.inr hj)]
  split <;>
    first
      | rfl
      | (rename_i h1 h2
         first
           | (rw [ho] at h2
              exact Option.noConfusion h2)
           | (exfalso
              have := (List.get?_eq_some.mp h1).choose
              omega))

/-! ## Basic facts about snapshots and the identity resolver -/

/-- A snapshot entry captures the node's reference. -/
theorem copy_node (t : DomTree) : (copy t).node = t.ref := by
  cases t with
  | mk r ty c => simp [copy, ElementStructure.node, DomTree.ref]

/-- A snapshot of an element captures its children via `mapCopy`. -/
theorem copy_kids_elem (t : DomTree) (h : t.nodeType = 1) :
    (copy t).kids = mapCopy t.children := by
  cases t with
  | mk r ty c =>
      simp [DomTree.nodeType] at h
      simp [copy, ElementStructure.kids, DomTree.children, h]

/-- `mapCopy` preserves length. -/
theorem mapCopy_length (l : List DomTree) : (mapCopy l).length = l.length := by
  induction l with
  | nil => rfl
  | cons t ts ih => simp [mapCopy, ih]

/-- Indexing into a `mapCopy` snapshot list. -/
theorem mapCopy_get? (l : List DomTree) (n : Nat) :
    (mapCopy l).get? n = (l.get? n).map copy := by
  induction l generalizing n with
  | nil => simp [mapCopy]
  | cons t ts ih =>
      cases n with
      | zero => simp [mapCopy]
      | succ m => simpa [mapCopy] using ih m

/-- A minted synthetic id is never the empty string. -/
theorem minted_ne_empty (c : Nat) : ("__node_id" ++ toString c) ≠ "" := by
  intro h
  have hlen := congrArg String.length h
  simp [String.length_append] at hlen
  exact absurd hlen.1 (by decide)

/-- Stability of the identity resolver: a second call for the same node
returns the same string and leaves the resolver state unchanged. -/
theorem getNodeID_stable (attrs : IdAttrs) (r : Nat) (g : IdState) :
    getNodeID attrs r (getNodeID attrs r g).2 = getNodeID attrs r g := by
  by_cases ha : idAttrOf attrs r = ""
  · by_cases hl : ((g.lookup r).getD "") = ""
    · have h1 : getNodeID attrs r g =
          ("__node_id" ++ toString (g.counter + 1),
           ⟨g.counter + 1, (r, "__node_id" ++ toString (g.counter + 1)) :: g.table⟩) := by
        simp [getNodeID, ha, hl]
      rw [h1]
      have h2 : (IdState.mk (g.counter + 1)
            ((r, "__node_id" ++ toString (g.counter + 1)) :: g.table)).lookup r =
          some ("__node_id" ++ toString (g.counter + 1)) := by
        simp [IdState.lookup, List.find?]
      simp [getNodeID, ha, h2, minted_ne_empty]
    · have h1 : getNodeID attrs r g = (((g.lookup r).getD ""), g) := by
        simp [getNodeID, ha, hl]
      rw [h1]
      simp [getNodeID, ha, hl]
  · have h1 : getNodeID attrs r g = (idAttrOf attrs r, g) := by
      simp [getNodeID, ha]
    rw [h1]
    simp [getNodeID, ha]

/-- Membership version of list well-formedness. -/
theorem wellFormedList_mem {l : List DomTree} (h : wellFormedList l = true)
    {c : DomTree} (hc : c ∈ l) : wellFormed c = true := by
  induction l with
  | nil => cases hc
  | cons t ts ih =>
      rw [wellFormedList, Bool.and_eq_true] at h
      cases hc with
      | head => exact h.1
      | tail _ htail => exact ih h.2 htail

/-- Scanning an aligned prefix of unchanged children (each the identity
under a self-diff) moves both cursors to the end of the prefix without
touching the threaded state, the seen map or the conflict stack. -/
theorem findMutationsLoop_aligned (attrs : IdAttrs) (cs rest : List DomTree)
    (restOld : List ElementStructure)
    (H : ∀ c ∈ cs, ∀ st : DiffSt, findMutations attrs c (copy c) st = st) :
    ∀ (n i : Nat) (map : List String) (st : DiffSt), i + n = cs.length →
    findMutationsLoop attrs (cs ++ rest) (mapCopy cs ++ restOld) i i map [] st =
      findMutationsLoop attrs (cs ++ rest) (mapCopy cs ++ restOld)
        cs.length cs.length map [] st := by
  intro n
  induction n with
  | zero =>
      intro i map st hi
      have : i = cs.length := by omega
      subst this
      rfl
  | succ m ih =>
      intro i map st hi
      have hilt : i < cs.length := by omega
      have hc : cs.get? i = some (cs.get ⟨i, hilt⟩) := List.get?_eq_get hilt
      have hk : (cs ++ rest).get? i = some (cs.get ⟨i, hilt⟩) := by
        rw [List.get?_append hilt]
        exact hc
      have ho : (mapCopy cs ++ restOld).get? i = some (copy (cs.get ⟨i, hilt⟩)) := by
        rw [List.get?_append (by rw [mapCopy_length]; exact hilt)]
        rw [mapCopy_get?, hc]
        rfl
      rw [findMutationsLoop_match attrs _ _ i i map [] st _ _ hk ho (copy_node _).symm]
      rw [resolveConflicts_nil]
      have hstep : (if (cs.get ⟨i, hilt⟩).children.length ≠ 0 ∨
          (copy (cs.get ⟨i, hilt⟩)).kids.length ≠ 0 then
            findMutations attrs (cs.get ⟨i, hilt⟩) (copy (cs.get ⟨i, hilt⟩)) st
          else st) = st := by
        split
        · exact H _ (List.get?_mem hc) st
        · rfl
      rw [hstep]
      exact ih (i + 1) map st (by omega)

/-- Diffing a well-formed subtree against its own fresh snapshot is the
identity on the threaded state: no dirty flag, no records, no id-state
changes (core of the no-op stability property). -/
theorem findMutations_copy_self (attrs : IdAttrs) :
    ∀ (n : Nat) (t : DomTree), sizeOf t ≤ n → wellFormed t = true →
    ∀ st : DiffSt, findMutations attrs t (copy t) st = st := by
  intro n
  induction n with
  | zero =>
      intro t h
      exfalso
      cases t with
      | mk r ty c =>
          rw [DomTree.mk.sizeOf_spec] at h
          omega
  | succ m ih =>
      intro t hsize hwf st
      cases t with
      | mk r ty ch =>
          rw [findMutations]
          by_cases hty : ty = 1
          · subst hty
            have hkids : (copy (DomTree.mk r 1 ch)).kids = mapCopy ch := by
              simp [copy, ElementStructure.kids]
            simp only [DomTree.children, hkids]
            rw [wellFormed, Bool.and_eq_true] at hwf
            have H : ∀ c ∈ ch, ∀ st' : DiffSt, findMutations attrs c (copy c) st' = st' := by
              intro c hcmem st'
              have hcsize : sizeOf c < sizeOf (DomTree.mk r 1 ch) := by
                have h1 := List.sizeOf_lt_of_mem hcmem
                simp [DomTree.mk.sizeOf_spec]
                omega
              exact ih c (by omega) (wellFormedList_mem hwf.2 hcmem) st'
            have halign := findMutationsLoop_aligned attrs ch [] [] H ch.length 0 [] st
              (by omega)
            simp only [List.append_nil] at halign
            rw [halign]
            exact findMutationsLoop_exit _ _ _ _ _ _ _ _ (le_refl _)
              (by rw [mapCopy_length])
          · have hch : ch = [] := by
              rw [wellFormed, Bool.and_eq_true, Bool.or_eq_true] at hwf
              rcases hwf.1 with h1 | h1
              · exact absurd (by simpa using h1) hty
              · simpa using h1
            subst hch
            have hkids : (copy (DomTree.mk r ty [])).kids = [] := by
              simp [copy, ElementStructure.kids, hty]
            simp only [DomTree.children, hkids]
            exact findMutationsLoop_exit _ _ _ _ _ _ _ _ (by simp) (by simp)

/-! ## The mismatch step: cursors and the dirty flag -/

/-- The live cursor advances in the mismatch branch exactly when
`currentNode` exists (`i++` guarded by `if (currentNode)`). -/
theorem mismatchStep_i (attrs : IdAttrs) (kids : List DomTree)
    (oldKids : List ElementStructure) (i j : Nat) (map : List String)
    (conflicts : List Conflict) (st : DiffSt) :
    (mismatchStep attrs kids oldKids i j map conflicts st).i =
      if (kids.get? i).isSome then i + 1 else i := by
  simp only [mismatchStep]

/-- The snapshot cursor advances in the mismatch branch exactly when
`oldNode` exists and differs from the (post-advance) `kids[i]`. -/
theorem mismatchStep_j (attrs : IdAttrs) (kids : List DomTree)
    (oldKids : List ElementStructure) (i j : Nat) (map : List String)
    (conflicts : List Conflict) (st : DiffSt) :
    (mismatchStep attrs kids oldKids i j map conflicts st).j =
      if ((oldKids.get? j).map ElementStructure.node).isSome ∧
          (oldKids.get? j).map ElementStructure.node ≠
            (kids.get? (if (kids.get? i).isSome then i + 1 else i)).map DomTree.ref
      then j + 1 else j := by
  simp only [mismatchStep]

/-- The mismatch branch always marks the state dirty (line 126). -/
theorem mismatchStep_dirty (attrs : IdAttrs) (kids : List DomTree)
    (oldKids : List ElementStructure) (i j : Nat) (map : List String)
    (conflicts : List Conflict) (st : DiffSt) :
    (mismatchStep attrs kids oldKids i j map conflicts st).st.dirty = true := by
  simp only [mismatchStep]
  repeat' split
  all_goals simp

/-- Popping a conflict whose indices are out of range skips it (such
conflicts never arise from the scanning loop). -/
theorem resolveConflicts_cons_skip (attrs : IdAttrs) (kids : List DomTree)
    (oldKids : List ElementStructure) (c : Conflict) (rest : List Conflict) (st : DiffSt)
    (hmiss : kids.get? c.i = none ∨ oldKids.get? c.j = none) :
    resolveConflicts attrs kids oldKids (c :: rest) st =
      resolveConflicts attrs kids oldKids rest st := by
  rw [resolveConflicts]
  split
  · rename_i h1 h2
    rcases hmiss with hm | hm
    · rw [hm] at h1
      exact Option.noConfusion h1
    · rw [hm] at h2
      exact Option.noConfusion h2
  · rfl

/-! ## Records imply dirty

The only place the differ appends a `WatcherRecord` is the mismatch branch,
which unconditionally sets `dirty`; the flag is never reset.  Hence a run
that ends with `dirty = false` cannot have touched the accumulator. -/

mutual

/-- If a `findMutations` pass ends not-dirty, it left the accumulator
untouched and started not-dirty. -/
theorem findMutations_inv (attrs : IdAttrs) (node : DomTree) (state : ElementStructure)
    (st : DiffSt) :
    (findMutations attrs node state st).dirty = false →
      (findMutations attrs node state st).changes = st.changes ∧ st.dirty = false := by
  rw [findMutations]
  exact findMutationsLoop_inv attrs node.children state.kids 0 0 [] [] st
termination_by (sizeOf node, 0, 0)
decreasing_by
  cases node with
  | mk r ty c => exact Prod.Lex.left _ _ (by simp [DomTree.children])

/-- Loop version of `findMutations_inv`. -/
theorem findMutationsLoop_inv (attrs : IdAttrs) (kids : List DomTree)
    (oldKids : List ElementStructure) (i j : Nat) (map : List String)
    (conflicts : List Conflict) (st : DiffSt) :
    (findMutationsLoop attrs kids oldKids i j map conflicts st).dirty = false →
      (findMutationsLoop attrs kids oldKids i j map conflicts st).changes = st.changes ∧
        st.dirty = false := by
  rcases hk : kids.get? i with _ | cn
  · rcases ho : oldKids.get? j with _ | os
    · rw [findMutationsLoop_exit attrs kids oldKids i j map conflicts st
        (List.get?_eq_none.mp hk) (List.get?_eq_none.mp ho)]
      intro hd
      exact ⟨rfl, hd⟩
    · rw [findMutationsLoop_snapOnly attrs kids oldKids i j map conflicts st os hk ho]
      intro hd
      have L := findMutationsLoop_inv attrs kids oldKids
        (mismatchStep attrs kids oldKids i j map conflicts st).i
        (mismatchStep attrs kids oldKids i j map conflicts st).j
        (mismatchStep attrs kids oldKids i j map conflicts st).map []
        (resolveConflicts attrs kids oldKids
          (mismatchStep attrs kids oldKids i j map conflicts st).conflicts
          (mismatchStep attrs kids oldKids i j map conflicts st).st) hd
      have R := resolveConflicts_inv attrs kids oldKids
        (mismatchStep attrs kids oldKids i j map conflicts st).conflicts
        (mismatchStep attrs kids oldKids i j map conflicts st).st L.2
      have hcontr := R.2
      rw [mismatchStep_dirty] at hcontr
      exact Bool.noConfusion hcontr
  · rcases ho : oldKids.get? j with _ | os
    · rw [findMutationsLoop_liveOnly attrs kids oldKids i j map conflicts st cn hk ho]
      intro hd
      have L := findMutationsLoop_inv attrs kids oldKids
        (mismatchStep attrs kids oldKids i j map conflicts st).i
        (mismatchStep attrs kids oldKids i j map conflicts st).j
        (mismatchStep attrs kids oldKids i j map conflicts st).map []
        (resolveConflicts attrs kids oldKids
          (mismatchStep attrs kids oldKids i j map conflicts st).conflicts
          (mismatchStep attrs kids oldKids i j map conflicts st).st) hd
      have R := resolveConflicts_inv attrs kids oldKids
        (mismatchStep attrs kids oldKids i j map conflicts st).conflicts
        (mismatchStep attrs kids oldKids i j map conflicts st).st L.2
      have hcontr := R.2
      rw [mismatchStep_dirty] at hcontr
      exact Bool.noConfusion hcontr
    · by_cases heq : cn.ref = os.node
      · rw [findMutationsLoop_match attrs kids oldKids i j map conflicts st cn os hk ho heq]
        intro hd
        have L := findMutationsLoop_inv attrs kids oldKids (i + 1) (j + 1) map []
          (if cn.children.length ≠ 0 ∨ os.kids.length ≠ 0 then
             findMutations attrs cn os (resolveConflicts attrs kids oldKids conflicts st)
           else resolveConflicts attrs kids oldKids conflicts st) hd
        by_cases hC : cn.children.length ≠ 0 ∨ os.kids.length ≠ 0
        · rw [if_pos hC] at L ⊢
          have F := findMutations_inv attrs cn os
            (resolveConflicts attrs kids oldKids conflicts st) L.2
          have RC := resolveConflicts_inv attrs kids oldKids conflicts st F.2
          refine ⟨?_, RC.2⟩
          rw [L.1, F.1, RC.1]
        · rw [if_neg hC] at L ⊢
          have RC := resolveConflicts_inv attrs kids oldKids conflicts st L.2
          refine ⟨?_, RC.2⟩
          rw [L.1, RC.1]
      · rw [findMutationsLoop_mismatch attrs kids oldKids i j map conflicts st cn os hk ho heq]
        intro hd
        have L := findMutationsLoop_inv attrs kids oldKids
          (mismatchStep attrs kids oldKids i j map conflicts st).i
          (mismatchStep attrs kids oldKids i j map conflicts st).j
          (mismatchStep attrs kids oldKids i j map conflicts st).map []
          (resolveConflicts attrs kids oldKids
            (mismatchStep attrs kids oldKids i j map conflicts st).conflicts
            (mismatchStep attrs kids oldKids i j map conflicts st).st) hd
        have R := resolveConflicts_inv attrs kids oldKids
          (mismatchStep attrs kids oldKids i j map conflicts st).conflicts
          (mismatchStep attrs kids oldKids i j map conflicts st).st L.2
        have hcontr := R.2
        rw [mismatchStep_dirty] at hcontr
        exact Bool.noConfusion hcontr
termination_by (sizeOf kids, 1, kids.length - i + (oldKids.length - j))
decreasing_by
  all_goals first
    | exact Prod.Lex.right _ (Prod.Lex.left _ _ (by omega))
    | exact Prod.Lex.left _ _ (List.sizeOf_lt_of_mem (List.get?_mem (by assumption)))
    | (refine Prod.Lex.right _ (Prod.Lex.right _ ?_)
       first
         | (have hi : i < kids.length := (List.get?_eq_some.mp hk).choose
            rw [List.get?_eq_getElem?] at hk
            simp [mismatchStep, hk]
            first | omega | (split <;> omega))
         | (have hi : kids.length ≤ i := List.get?_eq_none.mp hk
            have hj : j < oldKids.length := (List.get?_eq_some.mp ho).choose
            rw [List.get?_eq_getElem?] at hk ho
            simp [mismatchStep, hk, ho]
            first | omega | (split <;> omega))
         | (have hi : i < kids.length := (List.get?_eq_some.mp hk).choose
            have hj : j < oldKids.length := (List.get?_eq_some.mp ho).choose
            rw [List.get?_eq_getElem?] at hk ho
            simp [mismatchStep, hk, ho]
            first | omega | (split <;> omega)))

/-- Conflict-resolution version of `findMutations_inv`. -/
theorem resolveConflicts_inv (attrs : IdAttrs) (kids : List DomTree)
    (oldKids : List ElementStructure) (conflicts : List Conflict) (st : DiffSt) :
    (resolveConflicts attrs kids oldKids conflicts st).dirty = false →
      (resolveConflicts attrs kids oldKids conflicts st).changes = st.changes ∧
        st.dirty = false := by
  match conflicts with
  | [] =>
      rw [resolveConflicts_nil]
      exact fun hd => ⟨rfl, hd⟩
  | c :: rest =>
      rcases hk : kids.get? c.i with _ | cn
      · rw [resolveConflicts_cons_skip attrs kids oldKids c rest st (Or.inl hk)]
        exact resolveConflicts_inv attrs kids oldKids rest st
      · rcases ho : oldKids.get? c.j with _ | os
        · rw [resolveConflicts_cons_skip attrs kids oldKids c rest st (Or.inr ho)]
          exact resolveConflicts_inv attrs kids oldKids rest st
        · rw [resolveConflicts_cons attrs kids oldKids c rest st cn os hk ho]
          intro hd
          have L := resolveConflicts_inv attrs kids oldKids rest
            (findMutations attrs cn os st) hd
          have F := findMutations_inv attrs cn os st L.2
          exact ⟨L.1.trans F.1, F.2⟩
termination_by (sizeOf kids, 0, conflicts.length)
decreasing_by
  all_goals first
    | exact Prod.Lex.left _ _ (List.sizeOf_lt_of_mem (List.get?_mem (by assumption)))
    | exact Prod.Lex.right _ (Prod.Lex.right _ (by simp [List.length_cons]))

end

/-! ## indexOf and destroy -/

/-- `indexOf` from an index at or past the end finds nothing. -/
theorem indexOf_out {α : Type} (collection : List α) (searchFor : Nat) (fromIndex : Nat)
    (property : α → Nat) (h : collection.length ≤ fromIndex) :
    indexOf collection searchFor fromIndex property = -1 := by
  rw [indexOf]
  rw [dif_neg (by omega)]

/-- The snapshot-side move search of watch.ts line 153 is dead: projecting
the absent `node` property of a live node yields `undefined`, which is
never `===` a node reference, so the search always returns `-1`. -/
theorem indexOf_nodeProp (kids : List DomTree) (r : Nat) (fromIndex : Nat) :
    indexOf kids (some r) fromIndex DomTree.nodeProp = -1 := by
  rw [indexOf]
  split
  · rw [if_neg (by simp [DomTree.nodeProp])]
    exact indexOf_nodeProp kids r (fromIndex + 1)
  · rfl
termination_by kids.length - fromIndex

/-- Searching a cons cell from a positive index shifts the search. -/
theorem indexOf_cons_succ {α : Type} (t : List α) (a : α) (x : Nat) (n : Nat)
    (p : α → Nat) :
    indexOf (a :: t) x (n + 1) p =
      if indexOf t x n p = -1 then -1 else indexOf t x n p + 1 := by
  by_cases hn : n < t.length
  · rw [indexOf]
    rw [dif_pos (by simpa using Nat.succ_lt_succ hn)]
    conv_rhs => rw [indexOf]
    rw [dif_pos hn]
    simp only [List.get_cons_succ]
    by_cases hit : p (t.get ⟨n, hn⟩) = x
    · rw [if_pos hit, if_pos hit]
      rw [if_neg (by omega)]
      omega
    · rw [if_neg hit, if_neg hit]
      exact indexOf_cons_succ t a x (n + 1) p
  · rw [indexOf]
    rw [dif_neg (by simp; omega)]
    conv_rhs => rw [indexOf]
    rw [dif_neg hn]
    simp
termination_by t.length - n

/-- `indexOf` returns `-1` or an index at least `fromIndex`. -/
theorem indexOf_neg_or_ge {α : Type} (collection : List α) (searchFor : Nat)
    (fromIndex : Nat) (property : α → Nat) :
    indexOf collection searchFor fromIndex property = -1 ∨
      (fromIndex : Int) ≤ indexOf collection searchFor fromIndex property := by
  rw [indexOf]
  split
  · split
    · right
      omega
    · rcases indexOf_neg_or_ge collection searchFor (fromIndex + 1) property with h | h
      · left
        exact h
      · right
        omega
  · left
    rfl
termination_by collection.length - fromIndex

/-- `destroy` removes exactly the first occurrence of its own entry:
it agrees with `List.erase`. -/
theorem destroy_eq_erase : ∀ (l : List Nat) (x : Nat), destroy l x = l.erase x := by
  intro l
  induction l with
  | nil =>
      intro x
      simp [destroy, indexOf_out]
  | cons a t ih =>
      intro x
      by_cases ha : a = x
      · simp only [destroy, List.erase_cons]
        rw [indexOf]
        rw [dif_pos (by simp)]
        simp only [List.get]
        rw [if_pos ha]
        simp [ha]
      · simp only [destroy, List.erase_cons]
        rw [indexOf]
        rw [dif_pos (by simp)]
        simp only [List.get]
        rw [if_neg ha]
        rw [indexOf_cons_succ]
        rcases indexOf_neg_or_ge t x 0 (fun y => y) with hneg | hge
        · rw [if_pos hneg]
          simp only [if_pos rfl]
          have ht : destroy t x = t := by
            simp [destroy, hneg]
          rw [← ih x, ht]
          simp [ha]
        · have hnneg : indexOf t x 0 (fun y => y) ≠ -1 := by omega
          rw [if_neg hnneg]
          rw [if_neg (by omega)]
          have harith : (indexOf t x 0 (fun y => y) + 1).toNat =
              (indexOf t x 0 (fun y => y)).toNat + 1 := by omega
          rw [harith]
          simp only [List.take_succ_cons, List.drop_succ_cons, List.cons_append]
          have ht : destroy t x = t.take (indexOf t x 0 (fun y => y)).toNat ++
              t.drop ((indexOf t x 0 (fun y => y)).toNat + 1) := by
            simp [destroy, hnneg]
          rw [← ht, ih x]
          simp [ha]

/-! ## Injectivity of the minted counter suffix

Proof infrastructure only: an inverse for `Nat.toDigits`, used to show that
two synthetic ids minted at different counter values are distinct strings. -/

/-- `Nat.digitChar` on a digit below ten yields the matching ASCII digit. -/
theorem digitChar_val (m : Nat) (hm : m < 10) : (Nat.digitChar m).toNat - 48 = m := by
  interval_cases m <;> rfl

/-- Correctness of `Nat.toDigitsCore` relative to `digitsVal`. -/
theorem toDigitsCore_val : ∀ (fuel n : Nat) (ds : List Char), n < fuel →
    digitsVal (Nat.toDigitsCore 10 fuel n ds) = n * 10 ^ ds.length + digitsVal ds := by
  intro fuel
  induction fuel with
  | zero =>
      intro n ds hn
      omega
  | succ f ih =>
      intro n ds hn
      rw [Nat.toDigitsCore]
      by_cases h0 : n / 10 = 0
      · simp only [h0, if_true]
        have hlt : n < 10 := (Nat.div_eq_zero_iff (by norm_num)).mp h0
        simp [digitsVal, Nat.mod_eq_of_lt hlt, digitChar_val n hlt]
      · simp only [h0, if_false]
        have h10 : 10 ≤ n := by
          by_contra hc
          exact h0 (Nat.div_eq_of_lt (by omega))
        have hrec : n / 10 < f := by
          have := Nat.div_lt_self (show 0 < n by omega) (show 1 < 10 by norm_num)
          omega
        rw [ih (n / 10) (Nat.digitChar (n % 10) :: ds) hrec]
        simp only [digitsVal, List.length_cons,
                   digitChar_val (n % 10) (Nat.mod_lt _ (by norm_num))]
        have : n / 10 * 10 ^ (ds.length + 1) = (n / 10 * 10) * 10 ^ ds.length := by
          ring
        rw [this]
        have hmod := Nat.div_add_mod n 10
        nlinarith [pow_pos (show 0 < 10 by norm_num) ds.length]

/-- `digitsVal` inverts `Nat.toDigits` base 10. -/
theorem digitsVal_toDigits (n : Nat) : digitsVal (Nat.toDigits 10 n) = n := by
  rw [Nat.toDigits]
  rw [toDigitsCore_val (n + 1) n [] (by omega)]
  simp [digitsVal]

/-- `toString` on naturals is injective. -/
theorem natToString_injective (m n : Nat) (h : toString m = toString n) : m = n := by
  have h1 : Nat.repr m = Nat.repr n := h
  rw [Nat.repr, Nat.repr] at h1
  have h2 : Nat.toDigits 10 m = Nat.toDigits 10 n := by
    have hd := congrArg String.data h1
    simpa [List.asString] using hd
  have h3 := congrArg digitsVal h2
  rwa [digitsVal_toDigits, digitsVal_toDigits] at h3

/-- Two ids minted at distinct counter values are distinct strings. -/
theorem minted_distinct (c1 c2 : Nat) (h : c1 ≠ c2) :
    ("__node_id" ++ toString c1) ≠ ("__node_id" ++ toString c2) := by
  intro he
  apply h
  apply natToString_injective
  have hd := congrArg String.data he
  rw [String.data_append, String.data_append] at hd
  have hcancel := List.append_cancel_left hd
  exact String.ext hcancel

/-! ## Scheduler tick: deliveries -/

/-- Delivery indices produced by `checkChangesAux` are at least `idx`. -/
theorem checkChangesAux_index_ge (attrs : IdAttrs) :
    ∀ (es : List (DomTree × ElementStructure)) (idx : Nat) (g : IdState)
      (p : Nat × List WatcherRecord),
      p ∈ (checkChangesAux attrs idx g es).2.1 → idx ≤ p.1 := by
  intro es
  induction es with
  | nil =>
      intro idx g p hp
      simp [checkChangesAux] at hp
  | cons e rest ih =>
      intro idx g p hp
      simp only [checkChangesAux] at hp
      rw [List.mem_append] at hp
      rcases hp with hp | hp
      · split at hp
        · rw [List.mem_singleton] at hp
          subst hp
          exact le_refl idx
        · simp at hp
      · have := ih (idx + 1) _ p hp
        omega

/-- Complete characterization of the deliveries queued by one scheduler
tick: entry `k` gets exactly one queued delivery carrying its detector
output when that output is nonempty, and none otherwise. -/
theorem checkChangesAux_mem_iff (attrs : IdAttrs) :
    ∀ (es : List (DomTree × ElementStructure)) (idx : Nat) (g : IdState)
      (k : Nat) (hk : k < es.length) (cs : List WatcherRecord),
      ((idx + k, cs) ∈ (checkChangesAux attrs idx g es).2.1 ↔
        (cs = (detectChanges attrs (es.get ⟨k, hk⟩).1 (es.get ⟨k, hk⟩).2 []
                 (checkChangesAux attrs idx g (es.take k)).2.2).1 ∧ cs ≠ [])) := by
  intro es
  induction es with
  | nil =>
      intro idx g k hk
      exact absurd hk (by simp)
  | cons e rest ih =>
      intro idx g k hk cs
      cases k with
      | zero =>
          simp only [checkChangesAux, List.take_zero, List.get, Nat.add_zero]
          constructor
          · intro hp
            rw [List.mem_append] at hp
            rcases hp with hp | hp
            · split at hp
              · rw [List.mem_singleton] at hp
                rename_i hlen
                injection hp with hp1 hp2
                subst hp2
                refine ⟨rfl, ?_⟩
                intro hnil
                rw [hnil] at hlen
                simp at hlen
              · simp at hp
            · have := checkChangesAux_index_ge attrs rest (idx + 1) _ _ hp
              omega
          · rintro ⟨hcs, hne⟩
            rw [List.mem_append]
            left
            rw [if_pos (by subst hcs; simpa [List.length_eq_zero] using hne)]
            rw [List.mem_singleton, hcs]
      | succ k2 =>
          have hk2 : k2 < rest.length := by simpa using hk
          have heq : idx + (k2 + 1) = (idx + 1) + k2 := by omega
          simp only [checkChangesAux, List.take_succ_cons, List.get, heq]
          constructor
          · intro hp
            rw [List.mem_append] at hp
            rcases hp with hp | hp
            · split at hp
              · rw [List.mem_singleton] at hp
                injection hp with hp1 hp2
                omega
              · simp at hp
            · exact (ih (idx + 1) _ k2 hk2 cs).mp hp
          · intro hrhs
            rw [List.mem_append]
            right
            exact (ih (idx + 1) _ k2 hk2 cs).mpr hrhs

/-! ## Pure append / pure removal scenarios -/

/-- `mapCopy` distributes over append. -/
theorem mapCopy_append (l1 l2 : List DomTree) :
    mapCopy (l1 ++ l2) = mapCopy l1 ++ mapCopy l2 := by
  induction l1 with
  | nil => simp [mapCopy]
  | cons t ts ih => simp [mapCopy, ih]

/-- Appending one child `t` (of any node type) after unchanged well-formed
children `cs` yields exactly one `Added(t)` record and `dirty`. -/
theorem searchSubTree_append (attrs : IdAttrs) (changes : List WatcherRecord) (g : IdState)
    (p : Nat) (cs : List DomTree) (t : DomTree) (hwf : wellFormedList cs = true) :
    searchSubTree attrs changes (DomTree.mk p 1 (cs ++ [t])) (copy (DomTree.mk p 1 cs)) g =
      (true, changes ++ [⟨t.ref, ChangeType.Added⟩], (getNodeID attrs t.ref g).2) := by
  have hcopy : (copy (DomTree.mk p 1 cs)).kids = mapCopy cs := by
    simp [copy, ElementStructure.kids]
  simp only [searchSubTree]
  rw [findMutations]
  simp only [DomTree.children, hcopy]
  have H : ∀ c ∈ cs, ∀ st' : DiffSt, findMutations attrs c (copy c) st' = st' :=
    fun c hc st' =>
      findMutations_copy_self attrs (sizeOf c) c (le_refl _) (wellFormedList_mem hwf hc) st'
  have halign := findMutationsLoop_aligned attrs cs [t] [] H cs.length 0 []
    ⟨false, changes, g⟩ (by omega)
  rw [List.append_nil] at halign
  rw [halign]
  have hk : (cs ++ [t]).get? cs.length = some t := by
    rw [List.get?_append_right (le_refl _)]
    simp
  have ho : (mapCopy cs).get? cs.length = none :=
    List.get?_eq_none.mpr (by rw [mapCopy_length])
  rw [findMutationsLoop_liveOnly attrs _ _ _ _ _ _ _ t hk ho]
  have hio : indexOf (mapCopy cs) t.ref cs.length ElementStructure.node = -1 :=
    indexOf_out _ _ _ _ (by rw [mapCopy_length])
  have hr : mismatchStep attrs (cs ++ [t]) (mapCopy cs) cs.length cs.length [] []
      ⟨false, changes, g⟩ =
      ⟨cs.length + 1, cs.length, [(getNodeID attrs t.ref g).1], [],
       ⟨true, changes ++ [⟨t.ref, ChangeType.Added⟩], (getNodeID attrs t.ref g).2⟩⟩ := by
    have hk2 := hk
    have ho2 := ho
    rw [List.get?_eq_getElem?] at hk2 ho2
    simp [mismatchStep, hk2, ho2, hio]
  rw [hr]
  simp only [resolveConflicts_nil]
  rw [findMutationsLoop_exit _ _ _ _ _ _ _ _ (by simp) (by rw [mapCopy_length])]

/-- Removing the last child `t` (of any node type) after unchanged
well-formed children `cs` yields exactly one `Removed(t)` record and
`dirty`. -/
theorem searchSubTree_remove (attrs : IdAttrs) (changes : List WatcherRecord) (g : IdState)
    (p : Nat) (cs : List DomTree) (t : DomTree) (hwf : wellFormedList cs = true) :
    searchSubTree attrs changes (DomTree.mk p 1 cs) (copy (DomTree.mk p 1 (cs ++ [t]))) g =
      (true, changes ++ [⟨t.ref, ChangeType.Removed⟩], (getNodeID attrs t.ref g).2) := by
  have hcopy : (copy (DomTree.mk p 1 (cs ++ [t]))).kids = mapCopy cs ++ [copy t] := by
    simp [copy, ElementStructure.kids, mapCopy_append, mapCopy]
  simp only [searchSubTree]
  rw [findMutations]
  simp only [DomTree.children, hcopy]
  have H : ∀ c ∈ cs, ∀ st' : DiffSt, findMutations attrs c (copy c) st' = st' :=
    fun c hc st' =>
      findMutations_copy_self attrs (sizeOf c) c (le_refl _) (wellFormedList_mem hwf hc) st'
  have halign := findMutationsLoop_aligned attrs cs [] [copy t] H cs.length 0 []
    ⟨false, changes, g⟩ (by omega)
  rw [List.append_nil] at halign
  rw [halign]
  have hk : (cs : List DomTree).get? cs.length = none := List.get?_eq_none.mpr (le_refl _)
  have ho : (mapCopy cs ++ [copy t]).get? cs.length = some (copy t) := by
    rw [List.get?_append_right (by rw [mapCopy_length])]
    simp [mapCopy_length]
  rw [findMutationsLoop_snapOnly attrs _ _ _ _ _ _ _ (copy t) hk ho]
  have hr : mismatchStep attrs cs (mapCopy cs ++ [copy t]) cs.length cs.length [] []
      ⟨false, changes, g⟩ =
      ⟨cs.length, cs.length + 1, [(getNodeID attrs t.ref g).1], [],
       ⟨true, changes ++ [⟨t.ref, ChangeType.Removed⟩], (getNodeID attrs t.ref g).2⟩⟩ := by
    have hk2 := hk
    have ho2 := ho
    rw [List.get?_eq_getElem?] at hk2 ho2
    simp [mismatchStep, hk2, ho2, indexOf_nodeProp, copy_node]
  rw [hr]
  simp only [resolveConflicts_nil]
  rw [findMutationsLoop_exit _ _ _ _ _ _ _ _ (le_refl _) (by simp [mapCopy_length])]

/-- Swapping two distinct, otherwise-unchanged well-formed children marks
the run dirty but produces no records: the displaced node is paired through
the deferred-conflict stack and the seen-id map suppresses its second
encounter. -/
theorem searchSubTree_reorder (attrs : IdAttrs) (changes : List WatcherRecord) (g : IdState)
    (p : Nat) (a b : DomTree) (hwa : wellFormed a = true) (hwb : wellFormed b = true)
    (hab : a.ref ≠ b.ref) :
    searchSubTree attrs changes (DomTree.mk p 1 [b, a]) (copy (DomTree.mk p 1 [a, b])) g =
      (true, changes, (getNodeID attrs b.ref g).2) := by
  have hcopy : (copy (DomTree.mk p 1 [a, b])).kids = [copy a, copy b] := by
    simp [copy, ElementStructure.kids, mapCopy]
  simp only [searchSubTree]
  rw [findMutations]
  simp only [DomTree.children, hcopy]
  have hne : b.ref ≠ (copy a).node := by
    rw [copy_node]
    exact fun h => hab h.symm
  rw [findMutationsLoop_mismatch attrs [b, a] [copy a, copy b] 0 0 [] []
    ⟨false, changes, g⟩ b (copy a) rfl rfl hne]
  have hidx : indexOf [copy a, copy b] b.ref 0 ElementStructure.node = 1 := by
    rw [indexOf]
    rw [dif_pos (by simp)]
    simp only [List.get]
    rw [if_neg (by rw [copy_node]; exact hab)]
    rw [indexOf]
    rw [dif_pos (by simp)]
    simp only [List.get]
    rw [if_pos (copy_node b)]
    norm_num
  have hr : mismatchStep attrs [b, a] [copy a, copy b] 0 0 [] [] ⟨false, changes, g⟩ =
      ⟨1, 0, [(getNodeID attrs b.ref g).1], [⟨0, 1⟩],
       ⟨true, changes, (getNodeID attrs b.ref g).2⟩⟩ := by
    simp [mismatchStep, hidx, copy_node]
  rw [hr]
  dsimp only
  rw [resolveConflicts_cons attrs [b, a] [copy a, copy b] ⟨0, 1⟩ []
    ⟨true, changes, (getNodeID attrs b.ref g).2⟩ b (copy b) rfl rfl]
  rw [findMutations_copy_self attrs (sizeOf b) b (le_refl _) hwb]
  rw [resolveConflicts_nil]
  rw [findMutationsLoop_match attrs [b, a] [copy a, copy b] 1 0
    [(getNodeID attrs b.ref g).1] [] ⟨true, changes, (getNodeID attrs b.ref g).2⟩
    a (copy a) rfl rfl (copy_node a).symm]
  rw [resolveConflicts_nil]
  have hstep : (if a.children.length ≠ 0 ∨ (copy a).kids.length ≠ 0 then
      findMutations attrs a (copy a) ⟨true, changes, (getNodeID attrs b.ref g).2⟩
      else ⟨true, changes, (getNodeID attrs b.ref g).2⟩) =
      ⟨true, changes, (getNodeID attrs b.ref g).2⟩ := by
    split
    · exact findMutations_copy_self attrs (sizeOf a) a (le_refl _) hwa _
    · rfl
  rw [hstep]
  rw [findMutationsLoop_snapOnly attrs [b, a] [copy a, copy b] 2 1
    [(getNodeID attrs b.ref g).1] [] ⟨true, changes, (getNodeID attrs b.ref g).2⟩
    (copy b) rfl rfl]
  have hstab := getNodeID_stable attrs b.ref g
  have hr3 : mismatchStep attrs [b, a] [copy a, copy b] 2 1
      [(getNodeID attrs b.ref g).1] [] ⟨true, changes, (getNodeID attrs b.ref g).2⟩ =
      ⟨2, 2, [(getNodeID attrs b.ref g).1], [],
       ⟨true, changes, (getNodeID attrs b.ref g).2⟩⟩ := by
    simp [mismatchStep, copy_node, hstab]
  rw [hr3]
  dsimp only
  rw [resolveConflicts_nil]
  rw [findMutationsLoop_exit _ _ _ _ _ _ _ _ (by simp) (by simp)]

/-! ## Claim theorems -/

/-- C1: For every DOM subtree T (well-formed, as every real DOM tree is:
non-element nodes have no children), running the differ on T against a
snapshot of T taken with no intervening mutation
(`searchSubTree(changes, T, clone(T))`) returns `dirty = false` and appends
zero ChangeRecords to the accumulator (the identity-resolver state is not
touched either). -/
theorem claim_noop_stability (attrs : IdAttrs) (changes : List WatcherRecord) (g : IdState)
    (t : DomTree) (hwf : wellFormed t = true) :
    searchSubTree attrs changes t (clone t) g = (false, changes, g) := by
  simp only [searchSubTree, clone]
  rw [findMutations_copy_self attrs (sizeOf t) t (le_refl _) hwf]

/-- Witness for C1 at a concrete subtree (an element with an element child
and a text child). -/
theorem claim_noop_stability_witness :
    wellFormed (DomTree.mk 0 1 [DomTree.mk 1 1 [], DomTree.mk 2 3 []]) = true ∧
    searchSubTree [] [] (DomTree.mk 0 1 [DomTree.mk 1 1 [], DomTree.mk 2 3 []])
      (clone (DomTree.mk 0 1 [DomTree.mk 1 1 [], DomTree.mk 2 3 []])) ⟨0, []⟩ =
      (false, [], ⟨0, []⟩) :=
  ⟨by decide,
   claim_noop_stability [] [] ⟨0, []⟩
     (DomTree.mk 0 1 [DomTree.mk 1 1 [], DomTree.mk 2 3 []]) (by decide)⟩

/-- C2: For a watched node whose children at snapshot time were `[a, b]`
and at diff time are `[b, a]` (the same two node references, their subtrees
unchanged and well-formed), the differ returns `dirty = true` and appends
zero ChangeRecords: `b` is paired via a deferred conflict and its second
encounter is suppressed by the seen-id map, while `a` pairs positionally —
neither is reported as Added or Removed. -/
theorem claim_reorder_swap (attrs : IdAttrs) (changes : List WatcherRecord) (g : IdState)
    (p : Nat) (a b : DomTree) (hwa : wellFormed a = true) (hwb : wellFormed b = true)
    (hab : a.ref ≠ b.ref) :
    searchSubTree attrs changes (DomTree.mk p 1 [b, a]) (copy (DomTree.mk p 1 [a, b])) g =
      (true, changes, (getNodeID attrs b.ref g).2) :=
  searchSubTree_reorder attrs changes g p a b hwa hwb hab

/-- Witness for C2 with `a` an element owning a child and `b` an element. -/
theorem claim_reorder_swap_witness :
    wellFormed (DomTree.mk 1 1 [DomTree.mk 3 1 []]) = true ∧
    wellFormed (DomTree.mk 2 1 []) = true ∧
    (DomTree.mk 1 1 [DomTree.mk 3 1 []]).ref ≠ (DomTree.mk 2 1 []).ref ∧
    searchSubTree [] []
      (DomTree.mk 0 1 [DomTree.mk 2 1 [], DomTree.mk 1 1 [DomTree.mk 3 1 []]])
      (copy (DomTree.mk 0 1 [DomTree.mk 1 1 [DomTree.mk 3 1 []], DomTree.mk 2 1 []]))
      ⟨0, []⟩ =
      (true, [], (getNodeID [] (DomTree.mk 2 1 []).ref ⟨0, []⟩).2) :=
  ⟨by decide, by decide, by decide,
   claim_reorder_swap [] [] ⟨0, []⟩ 0 (DomTree.mk 1 1 [DomTree.mk 3 1 []])
     (DomTree.mk 2 1 []) (by decide) (by decide) (by decide)⟩

/-- C3: the repository's "child changes" scenario.  The watched root
(ref 0) contains `div#foo` (ref 1, id attribute `"foo"`); at snapshot time
`div#foo` contains `span1` (ref 2, containing `em`, ref 4) and `span2`
(ref 3); at diff time it contains only a new `span3` (ref 5, containing a
new `strong`, ref 6).  The differ appends exactly three records —
`Added(span3)`, `Removed(span1)`, `Removed(span2)` (in that push order; the
claim's multiset of one Added and two Removed) — and no record for `em` or
`strong`. -/
theorem claim_child_changes_scenario :
    searchSubTree [(1, "foo")] []
      (DomTree.mk 0 1 [DomTree.mk 1 1 [DomTree.mk 5 1 [DomTree.mk 6 1 []]]])
      (clone (DomTree.mk 0 1
        [DomTree.mk 1 1 [DomTree.mk 2 1 [DomTree.mk 4 1 []], DomTree.mk 3 1 []]]))
      ⟨0, []⟩ =
      (true, [⟨5, ChangeType.Added⟩, ⟨2, ChangeType.Removed⟩, ⟨3, ChangeType.Removed⟩],
       ⟨3, [(3, "__node_id3"), (2, "__node_id2"), (5, "__node_id1")]⟩) := by
  simp +decide [searchSubTree, findMutations, findMutationsLoop_exit, findMutationsLoop_match,
        findMutationsLoop_mismatch, findMutationsLoop_liveOnly, findMutationsLoop_snapOnly,
        resolveConflicts_nil, resolveConflicts_cons, mismatchStep,
        clone, copy, mapCopy, getNodeID, idAttrOf, IdState.lookup, indexOf,
        indexOf_nodeProp, DomTree.nodeProp,
        DomTree.ref, DomTree.children, DomTree.nodeType,
        ElementStructure.node, ElementStructure.kids]

/-- C5: after a detector run, the stored snapshot is replaced by a fresh
clone of the target exactly when the differ reported dirty — in particular
it is replaced when dirty is caused by reordering alone (zero records), and
left unchanged when the differ reports not dirty (in which case, by the
records-imply-dirty invariant, no records were appended either, so the
source's `dirty || changes.length !== olen` test collapses to `dirty`). -/
theorem claim_resnapshot_policy (attrs : IdAttrs) (target : DomTree)
    (oldState : ElementStructure) (changes : List WatcherRecord) (g : IdState) :
    (detectChanges attrs target oldState changes g).2.1 =
      (if (searchSubTree attrs changes target oldState g).1 then clone target
       else oldState) := by
  simp only [detectChanges]
  by_cases hd : (searchSubTree attrs changes target oldState g).1 = true
  · rw [if_pos (by rw [hd]; exact Or.inl rfl), if_pos (by rw [hd])]
  · have hd2 : (searchSubTree attrs changes target oldState g).1 = false :=
      Bool.not_eq_true _ |>.mp hd
    have hpres : (searchSubTree attrs changes target oldState g).2.1 = changes := by
      have := findMutations_inv attrs target oldState ⟨false, changes, g⟩
      simp only [searchSubTree] at hd2 ⊢
      exact (this hd2).1
    rw [if_neg, if_neg]
    · simp [hd2]
    · rintro (h | h)
      · rw [hd2] at h
        exact Bool.noConfusion h
      · rw [hpres] at h
        exact h rfl

/-- C8: `destroy` looks its entry up by reference identity and removes only
the first occurrence (it agrees with `List.erase`); calling it again after
the entry is gone — or with an entry that was never present — does not
throw (it is a total function) and leaves the active set unchanged, so it
never affects other entries. -/
theorem claim_destroy_idempotent (nodeMap : List Nat) (item : Nat) :
    destroy nodeMap item = nodeMap.erase item ∧
    (item ∉ nodeMap → destroy nodeMap item = nodeMap) := by
  refine ⟨destroy_eq_erase nodeMap item, fun h => ?_⟩
  rw [destroy_eq_erase]
  exact List.erase_of_not_mem h

/-- Witness for C8: removing an absent entry is a no-op. -/
theorem claim_destroy_idempotent_witness :
    (30 : Nat) ∉ [10, 20] ∧ destroy [10, 20] 30 = [10, 20].erase 30 ∧
    destroy [10, 20] 30 = [10, 20] :=
  ⟨by decide, (claim_destroy_idempotent [10, 20] 30).1,
   (claim_destroy_idempotent [10, 20] 30).2 (by decide)⟩

/-- C10: the differ does not restrict ChangeRecords to element nodes.  For
an arbitrary child `t` — its `nodeType` unconstrained, e.g. a text (3) or
comment (8) node — appended after (resp. removed from behind) unchanged
well-formed children, a record referencing `t` itself is emitted:
`findMutations` compares all `childNodes` without filtering by node kind,
and the snapshot includes non-element children as leaves. -/
theorem claim_nonelement_records (attrs : IdAttrs) (changes : List WatcherRecord)
    (g : IdState) (p : Nat) (cs : List DomTree) (t : DomTree)
    (hwf : wellFormedList cs = true) :
    searchSubTree attrs changes (DomTree.mk p 1 (cs ++ [t])) (copy (DomTree.mk p 1 cs)) g =
      (true, changes ++ [⟨t.ref, ChangeType.Added⟩], (getNodeID attrs t.ref g).2) ∧
    searchSubTree attrs changes (DomTree.mk p 1 cs) (copy (DomTree.mk p 1 (cs ++ [t]))) g =
      (true, changes ++ [⟨t.ref, ChangeType.Removed⟩], (getNodeID attrs t.ref g).2) :=
  ⟨searchSubTree_append attrs changes g p cs t hwf,
   searchSubTree_remove attrs changes g p cs t hwf⟩

/-- Witness for C10 with `t` a text node (nodeType 3). -/
theorem claim_nonelement_records_witness :
    wellFormedList [DomTree.mk 1 1 []] = true ∧
    searchSubTree [] [] (DomTree.mk 0 1 ([DomTree.mk 1 1 []] ++ [DomTree.mk 7 3 []]))
      (copy (DomTree.mk 0 1 [DomTree.mk 1 1 []])) ⟨0, []⟩ =
      (true, [⟨(DomTree.mk 7 3 []).ref, ChangeType.Added⟩],
       (getNodeID [] (DomTree.mk 7 3 []).ref ⟨0, []⟩).2) ∧
    searchSubTree [] [] (DomTree.mk 0 1 [DomTree.mk 1 1 []])
      (copy (DomTree.mk 0 1 ([DomTree.mk 1 1 []] ++ [DomTree.mk 7 3 []]))) ⟨0, []⟩ =
      (true, [⟨(DomTree.mk 7 3 []).ref, ChangeType.Removed⟩],
       (getNodeID [] (DomTree.mk 7 3 []).ref ⟨0, []⟩).2) :=
  ⟨by decide,
   (claim_nonelement_records [] [] ⟨0, []⟩ 0 [DomTree.mk 1 1 []] (DomTree.mk 7 3 [])
     (by decide)).1,
   (claim_nonelement_records [] [] ⟨0, []⟩ 0 [DomTree.mk 1 1 []] (DomTree.mk 7 3 [])
     (by decide)).2⟩

/-- C4: termination of the scanning loop.  Whenever the loop guard holds
and the cursors are in bounds, the mismatch branch strictly advances the
cursor sum (every iteration advances at least one of `i` and `j`; the
positional-match branch advances both by construction), keeps both cursors
in bounds, and strictly decreases the remaining-work measure that justifies
the loop's (and the recursion's) well-founded termination; and the loop
returns immediately once both cursors have exhausted their sequences. -/
theorem claim_loop_termination (attrs : IdAttrs) (kids : List DomTree)
    (oldKids : List ElementStructure) (i j : Nat) (map : List String)
    (conflicts : List Conflict) (st : DiffSt)
    (hguard : i < kids.length ∨ j < oldKids.length)
    (hi : i ≤ kids.length) (hj : j ≤ oldKids.length) :
    ((kids.length - (mismatchStep attrs kids oldKids i j map conflicts st).i) +
       (oldKids.length - (mismatchStep attrs kids oldKids i j map conflicts st).j) <
       (kids.length - i) + (oldKids.length - j) ∧
     (mismatchStep attrs kids oldKids i j map conflicts st).i ≤ kids.length ∧
     (mismatchStep attrs kids oldKids i j map conflicts st).j ≤ oldKids.length ∧
     i + j < (mismatchStep attrs kids oldKids i j map conflicts st).i +
       (mismatchStep attrs kids oldKids i j map conflicts st).j) ∧
    findMutationsLoop attrs kids oldKids kids.length oldKids.length map conflicts st
      = st := by
  constructor
  · rcases hk : kids.get? i with _ | cn
    · have hilen : kids.length ≤ i := List.get?_eq_none.mp hk
      have hjlt : j < oldKids.length := by omega
      have ho : oldKids.get? j = some (oldKids.get ⟨j, hjlt⟩) := List.get?_eq_get hjlt
      rw [List.get?_eq_getElem?] at hk ho
      simp [mismatchStep_i, mismatchStep_j, hk, ho]
      omega
    · have hilt : i < kids.length := (List.get?_eq_some.mp hk).choose
      rw [List.get?_eq_getElem?] at hk
      simp [mismatchStep_i, mismatchStep_j, hk]
      rcases ho2 : oldKids[j]? with _ | os
      · simp [ho2]
        omega
      · have hjo : j < oldKids.length := by
          by_contra hcon
          rw [List.getElem?_eq_none (by omega)] at ho2
          exact Option.noConfusion ho2
        simp [ho2]
        first
          | omega
          | (split <;> omega)
  · exact findMutationsLoop_exit attrs kids oldKids _ _ map conflicts st
      (le_refl _) (le_refl _)

/-- Witness for C4 at one live child and an exhausted snapshot side. -/
theorem claim_loop_termination_witness :
    ((0 : Nat) < ([DomTree.mk 5 1 []] : List DomTree).length ∨
      (0 : Nat) < ([] : List ElementStructure).length) ∧
    ((([DomTree.mk 5 1 []] : List DomTree).length -
        (mismatchStep [] [DomTree.mk 5 1 []] [] 0 0 [] [] ⟨false, [], ⟨0, []⟩⟩).i) +
       (([] : List ElementStructure).length -
        (mismatchStep [] [DomTree.mk 5 1 []] [] 0 0 [] [] ⟨false, [], ⟨0, []⟩⟩).j) <
       (([DomTree.mk 5 1 []] : List DomTree).length - 0) +
         (([] : List ElementStructure).length - 0) ∧
     (mismatchStep [] [DomTree.mk 5 1 []] [] 0 0 [] [] ⟨false, [], ⟨0, []⟩⟩).i ≤
       ([DomTree.mk 5 1 []] : List DomTree).length ∧
     (mismatchStep [] [DomTree.mk 5 1 []] [] 0 0 [] [] ⟨false, [], ⟨0, []⟩⟩).j ≤
       ([] : List ElementStructure).length ∧
     0 + 0 < (mismatchStep [] [DomTree.mk 5 1 []] [] 0 0 [] [] ⟨false, [], ⟨0, []⟩⟩).i +
       (mismatchStep [] [DomTree.mk 5 1 []] [] 0 0 [] [] ⟨false, [], ⟨0, []⟩⟩).j) ∧
    findMutationsLoop [] [DomTree.mk 5 1 []] []
      ([DomTree.mk 5 1 []] : List DomTree).length
      ([] : List ElementStructure).length [] [] ⟨false, [], ⟨0, []⟩⟩ =
      ⟨false, [], ⟨0, []⟩⟩ :=
  ⟨by decide,
   claim_loop_termination [] [DomTree.mk 5 1 []] [] 0 0 [] [] ⟨false, [], ⟨0, []⟩⟩
     (by decide) (by decide) (by decide)⟩

/-- C6 counterexample: identity strings are not globally unique across
natural and synthetic ids.  Node 1 carries the natural id attribute
`"__node_id1"`; node 2 has none, so the resolver mints `"__node_id1"` for
it (counter starts at 0) — two distinct nodes receive the same identity
string, refuting the claim's no-collision guarantee. -/
theorem claim_identity_counterexample :
    (getNodeID [(1, "__node_id1")] 1 ⟨0, []⟩).1 =
      (getNodeID [(1, "__node_id1")] 2 ((getNodeID [(1, "__node_id1")] 1 ⟨0, []⟩).2)).1 ∧
    (1 : Nat) ≠ 2 := by
  constructor
  · decide
  · decide

/-- C6 amended: `getNodeID` is stable — a second call for the same node
returns the same string and state — and injective on synthetic ids: two
distinct nodes that both lack a natural id attribute and a stored synthetic
id receive distinct minted strings (distinct counter values).  Collisions
remain possible when a natural id attribute equals another node's natural
or synthetic id, as the counterexample shows. -/
theorem claim_identity_amended :
    (∀ (attrs : IdAttrs) (r : Nat) (g : IdState),
        getNodeID attrs r ((getNodeID attrs r g).2) = getNodeID attrs r g) ∧
    (∀ (attrs : IdAttrs) (r1 r2 : Nat) (g : IdState),
        r1 ≠ r2 → idAttrOf attrs r1 = "" → idAttrOf attrs r2 = "" →
        g.lookup r1 = none → g.lookup r2 = none →
        (getNodeID attrs r1 g).1 ≠
          (getNodeID attrs r2 ((getNodeID attrs r1 g).2)).1) := by
  constructor
  · exact getNodeID_stable
  · intro attrs r1 r2 g hne ha1 ha2 hl1 hl2
    have h1 : getNodeID attrs r1 g =
        ("__node_id" ++ toString (g.counter + 1),
         ⟨g.counter + 1, (r1, "__node_id" ++ toString (g.counter + 1)) :: g.table⟩) := by
      simp [getNodeID, ha1, hl1]
    have htab : (g.table.find? (fun p => p.fst = r2)) = none := by
      have := hl2
      simp only [IdState.lookup, Option.map_eq_none'] at this
      exact this
    have h2 : (IdState.mk (g.counter + 1)
          ((r1, "__node_id" ++ toString (g.counter + 1)) :: g.table)).lookup r2 = none := by
      simp [IdState.lookup, List.find?, hne, htab]
    have h3 : getNodeID attrs r2
        (IdState.mk (g.counter + 1)
          ((r1, "__node_id" ++ toString (g.counter + 1)) :: g.table)) =
        ("__node_id" ++ toString (g.counter + 2),
         ⟨g.counter + 2, (r2, "__node_id" ++ toString (g.counter + 2)) ::
           (r1, "__node_id" ++ toString (g.counter + 1)) :: g.table⟩) := by
      simp [getNodeID, ha2, h2]
    rw [h1]
    simp only
    rw [h3]
    simp only
    exact minted_distinct (g.counter + 1) (g.counter + 2) (by omega)

/-- Witness for the amended C6: stability at one node, distinct minted ids
for two fresh id-less nodes. -/
theorem claim_identity_amended_witness :
    getNodeID [] 5 ((getNodeID [] 5 ⟨0, []⟩).2) = getNodeID [] 5 ⟨0, []⟩ ∧
    ((5 : Nat) ≠ 6 ∧ idAttrOf [] 5 = "" ∧ idAttrOf [] 6 = "" ∧
      (IdState.mk 0 []).lookup 5 = none ∧ (IdState.mk 0 []).lookup 6 = none) ∧
    (getNodeID [] 5 ⟨0, []⟩).1 ≠ (getNodeID [] 6 ((getNodeID [] 5 ⟨0, []⟩).2)).1 :=
  ⟨claim_identity_amended.1 [] 5 ⟨0, []⟩,
   ⟨by decide, by decide, by decide, by decide, by decide⟩,
   claim_identity_amended.2 [] 5 6 ⟨0, []⟩ (by decide) (by decide) (by decide)
     (by decide) (by decide)⟩

/-- C7: on a scheduler tick, entry `k` has a delivery queued exactly when
its detector run (with the identity-resolver state as threaded after the
earlier entries) produced a nonempty record batch, and the queued delivery
carries exactly those records; an entry whose run produced zero records
gets no queued delivery, so its callback is never invoked. -/
theorem claim_delivery_iff (attrs : IdAttrs) (g : IdState)
    (entries : List (DomTree × ElementStructure)) (k : Nat) (hk : k < entries.length)
    (cs : List WatcherRecord) :
    ((k, cs) ∈ (checkChanges attrs g entries).2.1 ↔
      (cs = (detectChanges attrs (entries.get ⟨k, hk⟩).1 (entries.get ⟨k, hk⟩).2 []
               (checkChanges attrs g (entries.take k)).2.2).1 ∧ cs ≠ [])) := by
  have h := checkChangesAux_mem_iff attrs entries 0 g k hk cs
  simpa [checkChanges] using h

/-- Witness for C7: a one-entry active set whose target gained a child. -/
theorem claim_delivery_iff_witness :
    (0 : Nat) < ([((DomTree.mk 0 1 [DomTree.mk 1 3 []]), copy (DomTree.mk 0 1 []))] :
      List (DomTree × ElementStructure)).length ∧
    ((0, ([⟨1, ChangeType.Added⟩] : List WatcherRecord)) ∈
        (checkChanges [] ⟨0, []⟩
          [((DomTree.mk 0 1 [DomTree.mk 1 3 []]), copy (DomTree.mk 0 1 []))]).2.1 ↔
      (([⟨1, ChangeType.Added⟩] : List WatcherRecord) =
        (detectChanges []
          (([((DomTree.mk 0 1 [DomTree.mk 1 3 []]), copy (DomTree.mk 0 1 []))] :
            List (DomTree × ElementStructure)).get ⟨0, by decide⟩).1
          (([((DomTree.mk 0 1 [DomTree.mk 1 3 []]), copy (DomTree.mk 0 1 []))] :
            List (DomTree × ElementStructure)).get ⟨0, by decide⟩).2 []
          (checkChanges [] ⟨0, []⟩
            (([((DomTree.mk 0 1 [DomTree.mk 1 3 []]), copy (DomTree.mk 0 1 []))] :
              List (DomTree × ElementStructure)).take 0)).2.2).1 ∧
        ([⟨1, ChangeType.Added⟩] : List WatcherRecord) ≠ [])) :=
  ⟨by decide,
   claim_delivery_iff [] ⟨0, []⟩
     [((DomTree.mk 0 1 [DomTree.mk 1 3 []]), copy (DomTree.mk 0 1 []))] 0 (by decide)
     [⟨1, ChangeType.Added⟩]⟩

/-- C9: whenever a `searchSubTree` run changes the accumulator at all, it
returns `dirty = true` (records imply dirty); consequently the detector's
re-snapshot test `dirty || changes.length !== olen` is equivalent to
`dirty` alone. -/
theorem claim_records_imply_dirty (attrs : IdAttrs) (changes : List WatcherRecord)
    (target : DomTree) (oldState : ElementStructure) (g : IdState) :
    ((searchSubTree attrs changes target oldState g).2.1 ≠ changes →
      (searchSubTree attrs changes target oldState g).1 = true) ∧
    (((searchSubTree attrs changes target oldState g).1 = true ∨
        (searchSubTree attrs changes target oldState g).2.1.length ≠ changes.length) ↔
      (searchSubTree attrs changes target oldState g).1 = true) := by
  have hpres : (searchSubTree attrs changes target oldState g).1 = false →
      (searchSubTree attrs changes target oldState g).2.1 = changes := by
    simp only [searchSubTree]
    intro hd
    exact (findMutations_inv attrs target oldState ⟨false, changes, g⟩ hd).1
  constructor
  · intro hne
    by_contra hd
    exact hne (hpres (Bool.not_eq_true _ |>.mp hd))
  · constructor
    · rintro (hd | hlen)
      · exact hd
      · by_contra hd
        rw [hpres (Bool.not_eq_true _ |>.mp hd)] at hlen
        exact hlen rfl
    · exact Or.inl

/-- Witness for C9: a one-child addition appends a record and the run is
dirty. -/
theorem claim_records_imply_dirty_witness :
    (searchSubTree [] [] (DomTree.mk 0 1 [DomTree.mk 1 3 []])
        (clone (DomTree.mk 0 1 [])) ⟨0, []⟩).2.1 ≠ [] ∧
    (searchSubTree [] [] (DomTree.mk 0 1 [DomTree.mk 1 3 []])
        (clone (DomTree.mk 0 1 [])) ⟨0, []⟩).1 = true :=
  ⟨by
    simp +decide [searchSubTree, findMutations, findMutationsLoop_exit,
      findMutationsLoop_match, findMutationsLoop_mismatch, findMutationsLoop_liveOnly,
      findMutationsLoop_snapOnly, resolveConflicts_nil, resolveConflicts_cons,
      mismatchStep, clone, copy, mapCopy, getNodeID, idAttrOf, IdState.lookup, indexOf,
      indexOf_nodeProp, DomTree.nodeProp,
      DomTree.ref, DomTree.children, DomTree.nodeType,
      ElementStructure.node, ElementStructure.kids],
   (claim_records_imply_dirty [] [] (DomTree.mk 0 1 [DomTree.mk 1 3 []])
      (clone (DomTree.mk 0 1 [])) ⟨0, []⟩).1
     (by
       simp +decide [searchSubTree, findMutations, findMutationsLoop_exit,
         findMutationsLoop_match, findMutationsLoop_mismatch, findMutationsLoop_liveOnly,
         findMutationsLoop_snapOnly, resolveConflicts_nil, resolveConflicts_cons,
         mismatchStep, clone, copy, mapCopy, getNodeID, idAttrOf, IdState.lookup, indexOf,
      indexOf_nodeProp, DomTree.nodeProp,
         DomTree.ref, DomTree.children, DomTree.nodeType,
         ElementStructure.node, ElementStructure.kids])⟩
